import Mathlib

/-!
Verification of lorri's `src/builder.rs` (the instrumented nix-instantiate
orchestrator): the `LogDatum` stream classifier `parse_evaluation_line`,
the watch-list fold of `instrumented_instantiation`, the `BuildError`
taxonomy with its smart constructors, and the `LogLinesDisplay` rendering.

A line of diagnostic output is modelled as its raw byte sequence
(`List Nat`, each element a byte value), mirroring `OsString` on Unix.
The anchored regexes of `parse_evaluation_line` are modelled by explicit
prefix/suffix matching with a greedy (rightmost) separator search for the
two-group `COPIED_SOURCE` pattern, and Rust's UTF-8 decoding is modelled
byte-exactly (`utf8Valid` for `OsStr::to_str`, `utf8LossyBytes` for
`String::from_utf8_lossy`).
-/

/-- Byte values of an ASCII string (valid for ASCII-only literals);
used to write concrete test inputs readably. -/
def strBytes (s : String) : List Nat := s.data.map Char.toNat

/-- The single-quote byte `0x27` delimiting paths in the diagnostic patterns. -/
def QUOTE : Nat := 39

/-- The newline byte `0x0A`, the one character the regex `.` does not match. -/
def NEWLINE : Nat := 10

/-- Literal part of the `EVAL_FILE` regex `^evaluating file '(?P<source>.*)'$`
up to the capture group: the bytes of `evaluating file '`. -/
def EVAL_FILE_PRE : List Nat :=
  [101, 118, 97, 108, 117, 97, 116, 105, 110, 103, 32, 102, 105, 108, 101, 32, 39]

/-- Literal head of the `COPIED_SOURCE` regex
`^copied source '(?P<source>.*)' -> '(?:.*)'$`: the bytes of `copied source '`. -/
def COPIED_SOURCE_PRE : List Nat :=
  [99, 111, 112, 105, 101, 100, 32, 115, 111, 117, 114, 99, 101, 32, 39]

/-- Separator of the `COPIED_SOURCE` regex between the two capture groups:
the bytes of quote, space, dash, greater-than, space, quote. -/
def COPIED_SOURCE_SEP : List Nat := [39, 32, 45, 62, 32, 39]

/-- Literal part of the `LORRI_READ` regex `^trace: lorri read: '(?P<source>.*)'$`:
the bytes of `trace: lorri read: '`. -/
def LORRI_READ_PRE : List Nat :=
  [116, 114, 97, 99, 101, 58, 32, 108, 111, 114, 114, 105, 32, 114, 101, 97, 100, 58, 32, 39]

/-- Literal part of the `LORRI_READDIR` regex `^trace: lorri readdir: '(?P<source>.*)'$`:
the bytes of `trace: lorri readdir: '`. -/
def LORRI_READDIR_PRE : List Nat :=
  [116, 114, 97, 99, 101, 58, 32, 108, 111, 114, 114, 105, 32, 114, 101, 97, 100, 100,
   105, 114, 58, 32, 39]

example : EVAL_FILE_PRE = strBytes "evaluating file '" := by decide
example : COPIED_SOURCE_PRE = strBytes "copied source '" := by decide
example : COPIED_SOURCE_SEP = strBytes "' -> '" := by decide
example : LORRI_READ_PRE = strBytes "trace: lorri read: '" := by decide
example : LORRI_READDIR_PRE = strBytes "trace: lorri readdir: '" := by decide

/-- Is `b` a UTF-8 continuation byte (`0x80..=0xBF`)? -/
def contByte (b : Nat) : Bool := 128 ≤ b && b ≤ 191

/-- Range check for the first continuation byte of a three-byte UTF-8
sequence headed by `b` (excludes overlong forms and surrogates, exactly
as Rust's `str::from_utf8` does). -/
def cont3 (b b2 : Nat) : Bool :=
  (if b = 224 then 160 else 128) ≤ b2 && b2 ≤ (if b = 237 then 159 else 191)

/-- Range check for the first continuation byte of a four-byte UTF-8
sequence headed by `b` (excludes overlong forms and values above
`U+10FFFF`, exactly as Rust's `str::from_utf8` does). -/
def cont4 (b b2 : Nat) : Bool :=
  (if b = 240 then 144 else 128) ≤ b2 && b2 ≤ (if b = 244 then 143 else 191)

/-- UTF-8 validity of a byte sequence, following the exact ranges Rust's
`str::from_utf8` accepts; models `OsStr::to_str` succeeding on Unix. -/
def utf8Valid : List Nat → Bool
  | [] => true
  | b :: rest =>
    if b ≤ 127 then utf8Valid rest
    else
      match rest with
      | [] => false
      | b2 :: r =>
        if 194 ≤ b && b ≤ 223 then contByte b2 && utf8Valid r
        else
          match r with
          | [] => false
          | b3 :: r2 =>
            if 224 ≤ b && b ≤ 239 then cont3 b b2 && contByte b3 && utf8Valid r2
            else
              match r2 with
              | [] => false
              | b4 :: r3 =>
                if 240 ≤ b && b ≤ 244 then
                  cont4 b b2 && contByte b3 && contByte b4 && utf8Valid r3
                else false

/-- UTF-8 encoding of the replacement character `U+FFFD`. -/
def RCH : List Nat := [239, 191, 189]

/-- Byte sequence of `String::from_utf8_lossy` applied to a byte sequence:
each maximal invalid subpart is replaced by one `U+FFFD`, following the
error-length rules of Rust's UTF-8 validation (an invalid lead byte or a
lone lead loses one byte; a lead whose later continuation byte is wrong
loses the lead together with the valid continuation bytes before the
offending one; a truncated sequence at the end loses its bytes). -/
def utf8LossyBytes : List Nat → List Nat
  | [] => []
  | b :: rest =>
    if b ≤ 127 then b :: utf8LossyBytes rest
    else
      match rest with
      | [] => RCH
      | b2 :: r =>
        if 194 ≤ b && b ≤ 223 then
          if contByte b2 then b :: b2 :: utf8LossyBytes r
          else RCH ++ utf8LossyBytes (b2 :: r)
        else if 224 ≤ b && b ≤ 239 then
          if cont3 b b2 then
            match r with
            | [] => RCH
            | b3 :: r2 =>
              if contByte b3 then b :: b2 :: b3 :: utf8LossyBytes r2
              else RCH ++ utf8LossyBytes (b3 :: r2)
          else RCH ++ utf8LossyBytes (b2 :: r)
        else if 240 ≤ b && b ≤ 244 then
          if cont4 b b2 then
            match r with
            | [] => RCH
            | b3 :: r2 =>
              if contByte b3 then
                match r2 with
                | [] => RCH
                | b4 :: r3 =>
                  if contByte b4 then b :: b2 :: b3 :: b4 :: utf8LossyBytes r3
                  else RCH ++ utf8LossyBytes (b4 :: r3)
              else RCH ++ utf8LossyBytes (b3 :: r2)
          else RCH ++ utf8LossyBytes (b2 :: r)
        else RCH ++ utf8LossyBytes (b2 :: r)

example : utf8Valid (strBytes "copied source 'a'") = true := by decide
example : utf8Valid [255] = false := by decide
example : utf8Valid [206, 187] = true := by decide
example : utf8LossyBytes [97, 255, 98] = [97, 239, 191, 189, 98] := by decide
example : utf8LossyBytes [224, 160, 65] = [239, 191, 189, 65] := by decide
example : utf8LossyBytes [240, 144, 128, 128] = [240, 144, 128, 128] := by decide

/-- On a valid UTF-8 byte sequence the lossy conversion is the identity. -/
theorem utf8LossyBytes_of_valid (l : List Nat) (h : utf8Valid l = true) :
    utf8LossyBytes l = l := by
  induction l using utf8LossyBytes.induct with
  | case1 => rfl
  | case2 b rest hb ih =>
    rw [utf8Valid.eq_def] at h
    simp only [if_pos hb] at h
    rw [utf8LossyBytes.eq_def]
    simp only [if_pos hb]
    rw [ih h]
  | case3 b hb =>
    rw [utf8Valid.eq_def] at h
    simp only [if_neg hb] at h
    exact Bool.noConfusion h
  | case4 b hb b2 r h2 hc ih =>
    rw [utf8Valid.eq_def] at h
    simp only [if_neg hb, if_pos h2] at h
    simp only [Bool.and_eq_true] at h
    rw [utf8LossyBytes.eq_def]
    simp only [if_neg hb, if_pos h2, if_pos hc]
    rw [ih h.2]
  | case5 b hb b2 r h2 hc ih =>
    rw [utf8Valid.eq_def] at h
    simp only [if_neg hb, if_pos h2] at h
    simp only [Bool.and_eq_true] at h
    exact absurd h.1 hc
  | case6 b hb b2 h2 h3 hc3 =>
    rw [utf8Valid.eq_def] at h
    simp only [if_neg hb, if_neg h2] at h
    exact Bool.noConfusion h
  | case7 b hb b2 h2 h3 hc3 b3 r2 hcb ih =>
    rw [utf8Valid.eq_def] at h
    simp only [if_neg hb, if_neg h2, if_pos h3] at h
    simp only [Bool.and_eq_true] at h
    rw [utf8LossyBytes.eq_def]
    simp only [if_neg hb, if_neg h2, if_pos h3, if_pos hc3, if_pos hcb]
    rw [ih h.2]
  | case8 b hb b2 h2 h3 hc3 b3 r2 hcb ih =>
    rw [utf8Valid.eq_def] at h
    simp only [if_neg hb, if_neg h2, if_pos h3] at h
    simp only [Bool.and_eq_true] at h
    exact absurd h.1.2 hcb
  | case9 b hb b2 r h2 h3 hc3 ih =>
    rw [utf8Valid.eq_def] at h
    simp only [if_neg hb, if_neg h2] at h
    cases r with
    | nil => exact Bool.noConfusion h
    | cons b3 r2 =>
      simp only [if_pos h3] at h
      simp only [Bool.and_eq_true] at h
      exact absurd h.1.1 hc3
  | case10 b hb b2 h2 h3 h4 hc4 =>
    rw [utf8Valid.eq_def] at h
    simp only [if_neg hb, if_neg h2] at h
    exact Bool.noConfusion h
  | case11 b hb b2 h2 h3 h4 hc4 b3 hcb =>
    rw [utf8Valid.eq_def] at h
    simp only [if_neg hb, if_neg h2, if_neg h3] at h
    exact Bool.noConfusion h
  | case12 b hb b2 h2 h3 h4 hc4 b3 hcb b4 r3 hcb2 ih =>
    rw [utf8Valid.eq_def] at h
    simp only [if_neg hb, if_neg h2, if_neg h3, if_pos h4] at h
    simp only [Bool.and_eq_true] at h
    rw [utf8LossyBytes.eq_def]
    simp only [if_neg hb, if_neg h2, if_neg h3, if_pos h4, if_pos hc4, if_pos hcb, if_pos hcb2]
    rw [ih h.2]
  | case13 b hb b2 h2 h3 h4 hc4 b3 hcb b4 r3 hcb2 ih =>
    rw [utf8Valid.eq_def] at h
    simp only [if_neg hb, if_neg h2, if_neg h3, if_pos h4] at h
    simp only [Bool.and_eq_true] at h
    exact absurd h.1.2 hcb2
  | case14 b hb b2 h2 h3 h4 hc4 b3 r2 hcb ih =>
    rw [utf8Valid.eq_def] at h
    simp only [if_neg hb, if_neg h2, if_neg h3] at h
    cases r2 with
    | nil => exact Bool.noConfusion h
    | cons b4 r3 =>
      simp only [if_pos h4] at h
      simp only [Bool.and_eq_true] at h
      exact absurd h.1.1.2 hcb
  | case15 b hb b2 r h2 h3 h4 hc4 ih =>
    rw [utf8Valid.eq_def] at h
    simp only [if_neg hb, if_neg h2] at h
    cases r with
    | nil => exact Bool.noConfusion h
    | cons b3 r2 =>
      simp only [if_neg h3] at h
      cases r2 with
      | nil => exact Bool.noConfusion h
      | cons b4 r3 =>
        simp only [if_pos h4] at h
        simp only [Bool.and_eq_true] at h
        exact absurd h.1.1.1 hc4
  | case16 b hb b2 r h2 h3 h4 ih =>
    rw [utf8Valid.eq_def] at h
    simp only [if_neg hb, if_neg h2] at h
    cases r with
    | nil => exact Bool.noConfusion h
    | cons b3 r2 =>
      simp only [if_neg h3] at h
      cases r2 with
      | nil => exact Bool.noConfusion h
      | cons b4 r3 =>
        simp only [if_neg h4] at h
        exact Bool.noConfusion h

/-- Does the byte sequence avoid the newline byte?  The regex atom `.`
matches every character except newline, so a capture group `(.*)` in an
anchored pattern matches exactly the newline-free byte sequences. -/
def noNL (l : List Nat) : Bool := l.all (fun b => b ≠ NEWLINE)

/-- Strip an expected literal prefix, returning the remainder on success;
models the anchored literal head of each diagnostic regex. -/
def stripPrefix? : List Nat → List Nat → Option (List Nat)
  | [], ys => some ys
  | _ :: _, [] => none
  | x :: xs, y :: ys => if x = y then stripPrefix? xs ys else none

/-- Strip the final quote byte demanded by the `'$` tail of each
diagnostic regex, returning everything before it. -/
def stripLastQuote? : List Nat → Option (List Nat)
  | [] => none
  | b :: rest =>
    match rest with
    | [] => if b = QUOTE then some [] else none
    | _ :: _ => (stripLastQuote? rest).map (fun t => b :: t)

/-- Full-match capture of a one-group anchored pattern
`^<pre>(?P<source>.*)'$`: the line must start with `pre`, end with a
quote, and the capture in between must be newline-free. -/
def tailCapture (pre line : List Nat) : Option (List Nat) :=
  match stripPrefix? pre line with
  | none => none
  | some rest =>
    match stripLastQuote? rest with
    | none => none
    | some mid => if noNL mid then some mid else none

/-- Does position `i` of `mid` split it into a valid
`<source>' -> '<dest>` decomposition for the `COPIED_SOURCE` regex?
Both groups are `.*`, hence newline-free. -/
def splitOK (mid : List Nat) (i : Nat) : Bool :=
  COPIED_SOURCE_SEP.isPrefixOf (mid.drop i) && noNL (mid.take i) &&
    noNL (mid.drop (i + COPIED_SOURCE_SEP.length))

/-- Greedy separator search of the `COPIED_SOURCE` regex: the first
capture group `(?P<source>.*)` is greedy, so the regex engine commits to
the largest split position whose remainder still matches; positions are
tried from `i` downwards. -/
def copiedSplitAux (mid : List Nat) : Nat → Option (List Nat × List Nat)
  | 0 =>
    if splitOK mid 0 then some ([], mid.drop COPIED_SOURCE_SEP.length) else none
  | i + 1 =>
    if splitOK mid (i + 1) then
      some (mid.take (i + 1), mid.drop (i + 1 + COPIED_SOURCE_SEP.length))
    else copiedSplitAux mid i

/-- Full-match source capture of the two-group anchored pattern
`^copied source '(?P<source>.*)' -> '(?:.*)'$`; only the source group is
captured, exactly as in the source regex. -/
def copiedCapture (line : List Nat) : Option (List Nat) :=
  match stripPrefix? COPIED_SOURCE_PRE line with
  | none => none
  | some rest =>
    match stripLastQuote? rest with
    | none => none
    | some mid => (copiedSplitAux mid mid.length).map (fun pr => pr.1)

/-- Capture of the `LORRI_READDIR` regex.  In the source this regex is
defined (`builder.rs` line 450) but never consulted by
`parse_evaluation_line`: the fourth classification branch re-tests
`LORRI_READ` instead. -/
def lorriReaddirCapture (line : List Nat) : Option (List Nat) :=
  tailCapture LORRI_READDIR_PRE line

/-- Classification of one line of `nix-instantiate -vv` output
(`enum LogDatum` in `builder.rs`); paths and raw text are byte sequences. -/
inductive LogDatum where
  /-- Nix source file (which should be tracked). -/
  | NixSourceFile (path : List Nat)
  /-- A file/directory copied verbatim to the nix store. -/
  | CopiedSource (path : List Nat)
  /-- A `builtins.readFile` or `builtins.filterSource` invocation: the
  subtree should be recursively watched. -/
  | ReadRecursively (path : List Nat)
  /-- A `builtins.readDir` invocation: only the file listing of the
  directory should be watched. -/
  | ReadDir (path : List Nat)
  /-- Arbitrary text not otherwise classified. -/
  | Text (line : List Nat)
  /-- Text that could not be decoded from UTF-8. -/
  | NonUtf (line : List Nat)
deriving DecidableEq

/-- `parse_evaluation_line` of `builder.rs`: classify one diagnostic
line.  A line that does not decode as UTF-8 is passed through as
`NonUtf`; otherwise the patterns are tried in the order of the source:
`EVAL_FILE`, `COPIED_SOURCE`, `LORRI_READ`, then — reproducing the
source's fourth branch verbatim — `LORRI_READ` once more (not
`LORRI_READDIR`), and finally plain `Text`. -/
def parse_evaluation_line (line : List Nat) : LogDatum :=
  if utf8Valid line then
    match tailCapture EVAL_FILE_PRE line with
    | some src => .NixSourceFile src
    | none =>
      match copiedCapture line with
      | some src => .CopiedSource src
      | none =>
        match tailCapture LORRI_READ_PRE line with
        | some src => .ReadRecursively src
        | none =>
          match tailCapture LORRI_READ_PRE line with
          | some src => .ReadDir src
          | none => .Text line
  else .NonUtf line

/-- `WatchPathBuf` of `watch.rs` as used by `builder.rs`: a path the
watcher should observe, either as a whole subtree (`Recursive`) or as a
single non-recursive entry (`Normal`). -/
inductive WatchPathBuf where
  /-- Watch the whole subtree rooted at the path. -/
  | Recursive (path : List Nat)
  /-- Watch only this path (for a directory: its listing). -/
  | Normal (path : List Nat)
deriving DecidableEq

/-- The bytes of `default.nix`. -/
def DEFAULT_NIX : List Nat := [100, 101, 102, 97, 117, 108, 116, 46, 110, 105, 120]

example : DEFAULT_NIX = strBytes "default.nix" := by decide

/-- `PathBuf::push` on Unix for a relative child: append the child,
inserting a `/` separator unless the base is empty or already ends
with `/`. -/
def pathPush (p child : List Nat) : List Nat :=
  if p.isEmpty then child
  else if p.getLast? = some 47 then p ++ child
  else p ++ 47 :: child

/-- The fold over classified stderr lines in `instrumented_instantiation`
(`builder.rs` lines 309-336): collect watch paths and, separately, the
plain-text and undecodable log lines, both in input order.  The
filesystem query `src.is_dir()` is abstracted by the parameter `isDir`. -/
def processResults (isDir : List Nat → Bool) : List LogDatum → List WatchPathBuf × List (List Nat)
  | [] => ([], [])
  | d :: rest =>
    let acc := processResults isDir rest
    match d with
    | .CopiedSource src => (.Recursive src :: acc.1, acc.2)
    | .ReadRecursively src => (.Recursive src :: acc.1, acc.2)
    | .ReadDir src => (.Normal src :: acc.1, acc.2)
    | .NixSourceFile src =>
      (.Normal (if isDir src then pathPush src DEFAULT_NIX else src) :: acc.1, acc.2)
    | .Text l => (acc.1, l :: acc.2)
    | .NonUtf l => (acc.1, l :: acc.2)

/-- The diagnostic payload a `LogDatum` contributes to the error log:
`Text` and `NonUtf` lines are kept, classified path events are not. -/
def textOf : LogDatum → Option (List Nat)
  | .Text l => some l
  | .NonUtf l => some l
  | _ => none

/-- `LogLine` of `builder.rs`: one raw line of stderr output. -/
structure LogLine where
  /-- The raw bytes of the line (`OsString` in the source). -/
  line : List Nat
deriving DecidableEq

/-- `LogLinesDisplay` of `builder.rs`: render each log line through
`String::from_utf8_lossy` and append a newline. -/
def logLinesDisplay : List LogLine → List Nat
  | [] => []
  | l :: rest => utf8LossyBytes l.line ++ NEWLINE :: logLinesDisplay rest

/-- The byte-for-byte rendering the specification describes: each raw
line followed by a newline, with no conversion at all. -/
def rawLinesConcat : List LogLine → List Nat
  | [] => []
  | l :: rest => l.line ++ NEWLINE :: rawLinesConcat rest

/-- `ExitStatus` of a Unix child process: `code` is `some c` for a
normal exit with code `c` and `none` when killed by a signal. -/
structure ExitStatus where
  /-- The numeric exit code, absent if terminated by a signal. -/
  code : Option Int
deriving DecidableEq

/-- `ExitStatus::success`: a process succeeded exactly when it exited
with code zero. -/
def ExitStatus.success (s : ExitStatus) : Bool := s.code = some 0

/-- `BuildError` of `builder.rs`: the four failure kinds of a build. -/
inductive BuildError where
  /-- A system-level IO error occurred during the build. -/
  | Io (msg : String)
  /-- An error occurred while spawning a Nix process. -/
  | Spawn (cmd : String) (msg : String)
  /-- The Nix process returned with a non-zero exit code. -/
  | Exit (cmd : String) (status : Option Int) (logs : List LogLine)
  /-- There was something wrong with the output of the Nix command. -/
  | Output (msg : String)
deriving DecidableEq

/-- Smart constructor `BuildError::exit`: asserts the status is
non-successful, so a successful status produces no value (`none` models
the assertion failure) and a failing one produces the `Exit` variant
with the command, the exit code and the raw log lines. -/
def BuildError.exit (cmd : String) (status : ExitStatus) (logs : List (List Nat)) :
    Option BuildError :=
  if status.success then none
  else some (.Exit cmd status.code (logs.map (fun l => ⟨l⟩)))

/-- `BuildError::is_actionable`: is there something the user can do
about this error? -/
def BuildError.is_actionable : BuildError → Bool
  | .Io _ => false
  | .Spawn _ _ => true
  | .Exit _ _ _ => true
  | .Output _ => true

/-- Outcome of the post-processing tail of `instrumented_instantiation`:
a successful instantiation (watch paths plus the single `.drv` build
product), a recoverable `BuildError`, or a process abort (`panic` in the
source). -/
inductive InstOutcome where
  /-- Successful instantiation: referenced paths and the build product. -/
  | ok (referenced_paths : List WatchPathBuf) (drv : List Nat)
  /-- A recoverable build error returned to the caller. -/
  | err (e : BuildError)
  /-- A loud abort of the process with a message. -/
  | abort (msg : String)
deriving DecidableEq

/-- The decision logic of `instrumented_instantiation` after both reader
threads are joined (`builder.rs` lines 309-349): fold the classified
stderr lines, fail with `BuildError::exit` on a non-zero exit status,
and otherwise demand exactly one build product on stdout, aborting
loudly on zero or several. -/
def instantiateOutcome (cmd : String) (status : ExitStatus) (results : List LogDatum)
    (buildProducts : List (List Nat)) (isDir : List Nat → Bool) : InstOutcome :=
  let acc := processResults isDir results
  if status.success then
    match buildProducts with
    | [] => .abort "logged_evaluation.nix did not return a build product."
    | [p] => .ok acc.1 p
    | _ :: _ :: _ => .abort "got more than one build product from logged_evaluation.nix"
  else
    match BuildError.exit cmd status acc.2 with
    | some e => .err e
    | none => .abort "cannot create an exit error from a successful status code"

/-- Stripping a literal prefix from a byte sequence that starts with it
yields the remainder. -/
theorem stripPrefix?_append (pre t : List Nat) : stripPrefix? pre (pre ++ t) = some t := by
  induction pre with
  | nil => rfl
  | cons x xs ih => simp [stripPrefix?, ih]

/-- Two byte sequences with different head bytes are not in the prefix
relation checked by `stripPrefix?`. -/
theorem stripPrefix?_head_ne (x y : Nat) (xs ys : List Nat) (h : x ≠ y) :
    stripPrefix? (x :: xs) (y :: ys) = none := by
  simp [stripPrefix?, h]

/-- Stripping the final quote from a byte sequence that ends with one
yields everything before it. -/
theorem stripLastQuote?_concat (t : List Nat) :
    stripLastQuote? (t ++ [QUOTE]) = some t := by
  induction t with
  | nil => rfl
  | cons x xs ih =>
    rw [List.cons_append, stripLastQuote?.eq_def]
    rcases hxs : xs ++ [QUOTE] with _ | ⟨z, zs⟩
    · exact absurd hxs (by simp)
    · simp only [hxs]
      rw [← hxs, ih]
      rfl

/-- A one-group anchored pattern captures exactly the bytes between its
literal prefix and the final quote, provided they are newline-free. -/
theorem tailCapture_append (pre src : List Nat) (h : noNL src = true) :
    tailCapture pre (pre ++ (src ++ [QUOTE])) = some src := by
  simp only [tailCapture, stripPrefix?_append, stripLastQuote?_concat, if_pos h]

/-- The separator of the copied-source pattern is a prefix of itself
followed by anything. -/
theorem isPrefixOf_self_append (s t : List Nat) : s.isPrefixOf (s ++ t) = true := by
  induction s with
  | nil => simp
  | cons x xs ih => simp [List.isPrefixOf, ih]

/-- A byte sequence passing the `isPrefixOf` test is an initial segment. -/
theorem eq_append_of_isPrefixOf (s : List Nat) :
    ∀ t : List Nat, s.isPrefixOf t = true → ∃ u, t = s ++ u := by
  induction s with
  | nil => exact fun t _ => ⟨t, rfl⟩
  | cons x xs ih =>
    intro t ht
    cases t with
    | nil => exact absurd ht (by simp [List.isPrefixOf])
    | cons y ys =>
      simp only [List.isPrefixOf, Bool.and_eq_true, beq_iff_eq] at ht
      obtain ⟨u, hu⟩ := ih ys ht.2
      exact ⟨u, by rw [ht.1, hu]; rfl⟩

/-- Dropping at least one byte from the separator-plus-destination
remainder never re-exposes the separator when the destination contains
no quote byte: the separator search cannot find a later split. -/
theorem sep_isPrefixOf_drop_false (dst : List Nat)
    (hq : dst.all (fun b => b ≠ QUOTE) = true) :
    ∀ k, 1 ≤ k →
      COPIED_SOURCE_SEP.isPrefixOf ((COPIED_SOURCE_SEP ++ dst).drop k) = false := by
  intro k hk
  rcases k with _ | _ | _ | _ | _ | _ | m
  · omega
  · simp [COPIED_SOURCE_SEP, List.isPrefixOf]
  · simp [COPIED_SOURCE_SEP, List.isPrefixOf]
  · simp [COPIED_SOURCE_SEP, List.isPrefixOf]
  · simp [COPIED_SOURCE_SEP, List.isPrefixOf]
  · -- five bytes dropped: the remainder starts with the quote that closes
    -- the separator, so a match would force a quote inside the destination
    cases hp : List.isPrefixOf [32, 45, 62, 32, 39] dst with
    | false => simp [COPIED_SOURCE_SEP, List.isPrefixOf, hp]
    | true =>
      obtain ⟨u, hu⟩ := eq_append_of_isPrefixOf _ _ hp
      subst hu
      simp [QUOTE] at hq
  · -- at least six bytes dropped: the remainder lies inside the destination
    have hrw : (COPIED_SOURCE_SEP ++ dst).drop (m + 6) = dst.drop m := by
      simp [COPIED_SOURCE_SEP]
    rw [hrw]
    cases hd : dst.drop m with
    | nil => simp [COPIED_SOURCE_SEP, List.isPrefixOf]
    | cons c cs =>
      have hc : c ∈ dst := (List.drop_suffix m dst).subset (hd ▸ List.mem_cons_self c cs)
      rw [List.all_eq_true] at hq
      have hcq := hq c hc
      simp only [QUOTE, decide_eq_true_eq] at hcq
      have hcne : (39 == c) = false := by
        rw [beq_eq_false_iff_ne]
        exact fun hcc => hcq hcc.symm
      simp [COPIED_SOURCE_SEP, List.isPrefixOf, hcne]

/-- The canonical separator position of a well-formed copied-source
middle part satisfies the split test. -/
theorem splitOK_src (src dst : List Nat) (hs : noNL src = true) (hd : noNL dst = true) :
    splitOK (src ++ (COPIED_SOURCE_SEP ++ dst)) src.length = true := by
  have h1 : (src ++ (COPIED_SOURCE_SEP ++ dst)).drop src.length = COPIED_SOURCE_SEP ++ dst := by
    simp
  have h2 : (src ++ (COPIED_SOURCE_SEP ++ dst)).take src.length = src := by simp
  have h3 : (src ++ (COPIED_SOURCE_SEP ++ dst)).drop (src.length + COPIED_SOURCE_SEP.length)
      = dst := by
    rw [← List.append_assoc, ← List.length_append]
    simp
  unfold splitOK
  rw [h1, h2, h3, isPrefixOf_self_append, hs, hd]
  rfl

/-- Dropping a prefix length plus `k` more bytes from an appended list
drops `k` bytes of the second part. -/
theorem drop_len_add (l1 l2 : List Nat) (k : Nat) :
    (l1 ++ l2).drop (l1.length + k) = l2.drop k := by
  induction l1 with
  | nil => simp
  | cons x xs ih =>
    have hlen : (x :: xs).length + k = (xs.length + k) + 1 := by
      simp [List.length_cons]
      omega
    rw [List.cons_append, hlen, List.drop_succ_cons, ih]

/-- Every position strictly after the canonical separator position fails
the split test when the destination contains no quote byte. -/
theorem splitOK_after (src dst : List Nat) (hq : dst.all (fun b => b ≠ QUOTE) = true) :
    ∀ t, src.length < t → splitOK (src ++ (COPIED_SOURCE_SEP ++ dst)) t = false := by
  intro t ht
  obtain ⟨k, rfl, hk1⟩ : ∃ k, t = src.length + k ∧ 1 ≤ k :=
    ⟨t - src.length, by omega, by omega⟩
  have hdrop : (src ++ (COPIED_SOURCE_SEP ++ dst)).drop (src.length + k)
      = (COPIED_SOURCE_SEP ++ dst).drop k :=
    drop_len_add src (COPIED_SOURCE_SEP ++ dst) k
  unfold splitOK
  rw [hdrop, sep_isPrefixOf_drop_false dst hq k hk1]
  rfl

/-- The greedy search skips all failing positions above `j`. -/
theorem copiedSplitAux_skip (mid : List Nat) (j : Nat)
    (hfail : ∀ t, j < t → splitOK mid t = false) :
    ∀ i, j ≤ i → copiedSplitAux mid i = copiedSplitAux mid j := by
  intro i
  induction i with
  | zero =>
    intro hij
    rw [Nat.le_zero.mp hij]
  | succ i ih =>
    intro hij
    rcases Nat.lt_or_ge j (i + 1) with hlt | hge
    · have hf : splitOK mid (i + 1) = false := hfail (i + 1) hlt
      rw [copiedSplitAux.eq_def]
      simp only [hf, Bool.false_eq_true, if_false]
      exact ih (by omega)
    · have hje : j = i + 1 := by omega
      rw [hje]

/-- At a succeeding position the greedy search returns the split there. -/
theorem copiedSplitAux_hit (mid : List Nat) (n : Nat) (h : splitOK mid n = true) :
    copiedSplitAux mid n
      = some (mid.take n, mid.drop (n + COPIED_SOURCE_SEP.length)) := by
  cases n with
  | zero => rw [copiedSplitAux.eq_def]; simp [h]
  | succ i => rw [copiedSplitAux.eq_def]; simp [h]

/-- A copied-source diagnostic line assembled from its two path parts:
`copied source '<src>' -> '<dst>'`. -/
def mkCopiedLine (src dst : List Nat) : List Nat :=
  COPIED_SOURCE_PRE ++ (src ++ (COPIED_SOURCE_SEP ++ (dst ++ [QUOTE])))

/-- An evaluating-file diagnostic line assembled from its path part:
`evaluating file '<src>'`. -/
def mkEvalLine (src : List Nat) : List Nat := EVAL_FILE_PRE ++ (src ++ [QUOTE])

example : mkCopiedLine (strBytes "/a") (strBytes "/nix/store/x")
    = strBytes "copied source '/a' -> '/nix/store/x'" := by decide
example : mkEvalLine (strBytes "/foo") = strBytes "evaluating file '/foo'" := by decide

/-- On a well-formed copied-source line whose destination contains no
quote byte, the greedy source capture returns exactly the source part. -/
theorem copiedCapture_mkCopiedLine (src dst : List Nat) (hs : noNL src = true)
    (hd : noNL dst = true) (hq : dst.all (fun b => b ≠ QUOTE) = true) :
    copiedCapture (mkCopiedLine src dst) = some src := by
  have hassoc : src ++ (COPIED_SOURCE_SEP ++ (dst ++ [QUOTE]))
      = (src ++ (COPIED_SOURCE_SEP ++ dst)) ++ [QUOTE] := by
    simp [List.append_assoc]
  simp only [copiedCapture, mkCopiedLine, stripPrefix?_append, hassoc, stripLastQuote?_concat]
  have hskip := copiedSplitAux_skip (src ++ (COPIED_SOURCE_SEP ++ dst)) src.length
    (splitOK_after src dst hq) (src ++ (COPIED_SOURCE_SEP ++ dst)).length
    (by simp [List.length_append])
  rw [hskip, copiedSplitAux_hit _ _ (splitOK_src src dst hs hd)]
  have ht : (src ++ (COPIED_SOURCE_SEP ++ dst)).take src.length = src := by simp
  rw [ht]
  rfl

/-- A line starting with the copied-source literal head never matches
the evaluating-file pattern (their first bytes differ). -/
theorem tailCapture_eval_copied_none (rest : List Nat) :
    tailCapture EVAL_FILE_PRE (COPIED_SOURCE_PRE ++ rest) = none := by
  simp [tailCapture, EVAL_FILE_PRE, COPIED_SOURCE_PRE, stripPrefix?]

/-- Classification of a well-formed copied-source line: the `CopiedSource`
variant carrying only the source capture. -/
theorem parse_copied_line (src dst : List Nat)
    (hv : utf8Valid (mkCopiedLine src dst) = true) (hs : noNL src = true)
    (hd : noNL dst = true) (hq : dst.all (fun b => b ≠ QUOTE) = true) :
    parse_evaluation_line (mkCopiedLine src dst) = .CopiedSource src := by
  have h1 : tailCapture EVAL_FILE_PRE (mkCopiedLine src dst) = none :=
    tailCapture_eval_copied_none _
  unfold parse_evaluation_line
  rw [if_pos hv, h1, copiedCapture_mkCopiedLine src dst hs hd hq]

/-- Classification of a well-formed evaluating-file line: the
`NixSourceFile` variant carrying the capture. -/
theorem parse_eval_line (src : List Nat) (hv : utf8Valid (mkEvalLine src) = true)
    (hs : noNL src = true) :
    parse_evaluation_line (mkEvalLine src) = .NixSourceFile src := by
  have h1 : tailCapture EVAL_FILE_PRE (mkEvalLine src) = some src :=
    tailCapture_append EVAL_FILE_PRE src hs
  unfold parse_evaluation_line
  rw [if_pos hv, h1]

/-- The log-line component of the fold is exactly the `Text` and
`NonUtf` data, in input order; classified path events never enter it. -/
theorem processResults_snd (isDir : List Nat → Bool) (results : List LogDatum) :
    (processResults isDir results).2 = results.filterMap textOf := by
  induction results with
  | nil => rfl
  | cons d rest ih =>
    cases d <;> simp [processResults, textOf, ih]

/-- The `ReadDir` classification is unreachable in the code as written:
the fourth branch of `parse_evaluation_line` re-tests the `LORRI_READ`
pattern, which the third branch has already consumed. -/
theorem readDir_unreachable (line p : List Nat) :
    parse_evaluation_line line ≠ LogDatum.ReadDir p := by
  unfold parse_evaluation_line
  by_cases hv : utf8Valid line = true
  · rw [if_pos hv]
    rcases h1 : tailCapture EVAL_FILE_PRE line with _ | s1
    · rcases h2 : copiedCapture line with _ | s2
      · rcases h3 : tailCapture LORRI_READ_PRE line with _ | s3
        · simp [h1, h2, h3]
        · simp [h1, h2, h3]
      · simp [h1, h2]
    · simp [h1]
  · rw [if_neg hv]
    simp

/-- C1: a diagnostic line of the exact directory-listing marker form
`trace: lorri readdir: '<path>'` matches the `LORRI_READDIR` pattern
(capture `/foo` here), yet `parse_evaluation_line` classifies it as
plain `Text`, not `ReadDir` — the source's fourth branch re-tests the
recursive-read pattern, leaving `ReadDir` unreachable, contrary to the
claim that such lines classify to the `ReadDirectoryListing` variant. -/
theorem c1_readdir_line_misclassified :
    lorriReaddirCapture (strBytes "trace: lorri readdir: '/foo'")
        = some (strBytes "/foo") ∧
      parse_evaluation_line (strBytes "trace: lorri readdir: '/foo'")
        = LogDatum.Text (strBytes "trace: lorri readdir: '/foo'") := by
  decide

/-- C10: the source capture of the copied-source pattern is greedy, so a
line containing the separator text more than once captures everything up
to the last separator: `copied source 'a' -> 'b' -> 'c'` classifies to
`CopiedSource` with path `a' -> 'b`, not `a`. -/
theorem c10_copied_source_greedy :
    parse_evaluation_line (strBytes "copied source 'a' -> 'b' -> 'c'")
      = LogDatum.CopiedSource (strBytes "a' -> 'b") := by
  decide

/-- C4: classification is total — `parse_evaluation_line` is a function
returning exactly one `LogDatum` for every input — and every byte
sequence that is not valid UTF-8 classifies to `NonUtf` carrying the
original bytes unchanged, without any error. -/
theorem c4_classification_total_nonutf (line : List Nat) (h : utf8Valid line = false) :
    parse_evaluation_line line = LogDatum.NonUtf line := by
  unfold parse_evaluation_line
  rw [if_neg (by simp [h])]

/-- Witness for C4 at the concrete undecodable line `[255]`. -/
theorem c4_classification_total_nonutf_witness :
    parse_evaluation_line [255] = LogDatum.NonUtf [255] :=
  c4_classification_total_nonutf [255] (by decide)

/-- C2 counterexample: the error-log display is not byte-for-byte on an
undecodable line — the single byte `0xFF` renders as the three-byte
UTF-8 replacement character plus newline, differing from the raw
line-plus-newline rendering the claim describes. -/
theorem c2_display_not_bytewise :
    logLinesDisplay [⟨[255]⟩] = [239, 191, 189, 10] ∧
      logLinesDisplay [⟨[255]⟩] ≠ rawLinesConcat [⟨[255]⟩] := by
  decide

/-- C2 (amended): for captured log lines that are valid UTF-8, the
display reproduces each line byte-for-byte followed by a newline; lines
that fail UTF-8 decoding are rendered lossily (replacement characters),
though classification itself keeps their bytes intact. -/
theorem c2_display_bytewise_of_valid (logs : List LogLine)
    (h : ∀ l ∈ logs, utf8Valid l.line = true) :
    logLinesDisplay logs = rawLinesConcat logs := by
  induction logs with
  | nil => rfl
  | cons l rest ih =>
    have hl := utf8LossyBytes_of_valid l.line (h l (List.mem_cons_self l rest))
    have hr := ih (fun x hx => h x (List.mem_cons_of_mem l hx))
    simp only [logLinesDisplay, rawLinesConcat, hl, hr]

/-- Witness for the amended C2 at the concrete line `hi`. -/
theorem c2_display_bytewise_of_valid_witness :
    logLinesDisplay [⟨[104, 105]⟩] = rawLinesConcat [⟨[104, 105]⟩] :=
  c2_display_bytewise_of_valid [⟨[104, 105]⟩] (by decide)

/-- C6: `BuildError::exit` is only constructible from a genuinely failing
exit status: on a successful status the assertion fails and no value is
produced, on a failing status the `Exit` variant carrying command, code
and raw log lines is produced. -/
theorem c6_exit_requires_failure (cmd : String) (status : ExitStatus)
    (logs : List (List Nat)) :
    (status.success = true → BuildError.exit cmd status logs = none) ∧
    (status.success = false →
      BuildError.exit cmd status logs
        = some (.Exit cmd status.code (logs.map (fun l => ⟨l⟩)))) := by
  constructor
  · intro h
    simp [BuildError.exit, h]
  · intro h
    simp [BuildError.exit, h]

/-- Witness for C6 at the successful status `some 0`. -/
theorem c6_exit_requires_failure_witness :
    BuildError.exit "nix-instantiate" ⟨some 0⟩ [] = none :=
  (c6_exit_requires_failure "nix-instantiate" ⟨some 0⟩ []).1 (by decide)

/-- C9: `is_actionable` returns `false` for the `Io` (SystemIo) kind and
`true` for each of `Spawn`, `Exit` and `Output`. -/
theorem c9_is_actionable_taxonomy :
    (∀ msg, (BuildError.Io msg).is_actionable = false) ∧
    (∀ cmd msg, (BuildError.Spawn cmd msg).is_actionable = true) ∧
    (∀ cmd status logs, (BuildError.Exit cmd status logs).is_actionable = true) ∧
    (∀ msg, (BuildError.Output msg).is_actionable = true) :=
  ⟨fun _ => rfl, fun _ _ => rfl, fun _ _ _ => rfl, fun _ => rfl⟩

/-- C3: on a successful (zero) exit status, a produced-artifact count of
zero or more than one makes the orchestrator abort loudly (not a
recoverable `BuildError`), and a count of exactly one returns that
artifact together with the folded watch paths. -/
theorem c3_success_product_contract (cmd : String) (status : ExitStatus)
    (results : List LogDatum) (products : List (List Nat)) (isDir : List Nat → Bool)
    (h : status.success = true) :
    (products.length ≠ 1 →
      ∃ msg, instantiateOutcome cmd status results products isDir = .abort msg) ∧
    (∀ p, products = [p] →
      instantiateOutcome cmd status results products isDir
        = .ok (processResults isDir results).1 p) := by
  constructor
  · intro hne
    rcases products with _ | ⟨p, _ | ⟨q, rest⟩⟩
    · exact ⟨"logged_evaluation.nix did not return a build product.",
        by simp [instantiateOutcome, h]⟩
    · simp at hne
    · exact ⟨"got more than one build product from logged_evaluation.nix",
        by simp [instantiateOutcome, h]⟩
  · rintro p rfl
    simp [instantiateOutcome, h]

/-- Witness for C3 at a successful status with zero build products. -/
theorem c3_success_product_contract_witness :
    ∃ msg, instantiateOutcome "nix-instantiate" ⟨some 0⟩ [] [] (fun _ => false)
      = .abort msg :=
  (c3_success_product_contract "nix-instantiate" ⟨some 0⟩ [] [] (fun _ => false)
    (by decide)).1 (by decide)

/-- C5: on a non-zero (non-successful) exit status the orchestrator
returns exactly the `Exit` variant, carrying the command line, the exit
code, and as its log only the accumulated `Text` and `NonUtf` lines —
never the classified path events. -/
theorem c5_nonzero_exit_error (cmd : String) (status : ExitStatus)
    (results : List LogDatum) (products : List (List Nat)) (isDir : List Nat → Bool)
    (h : status.success = false) :
    instantiateOutcome cmd status results products isDir
      = .err (.Exit cmd status.code ((results.filterMap textOf).map (fun l => ⟨l⟩))) := by
  simp [instantiateOutcome, BuildError.exit, h, processResults_snd]

/-- Witness for C5: a failing run with one text line and one classified
path event keeps only the text line in the error log. -/
theorem c5_nonzero_exit_error_witness :
    instantiateOutcome "nix-instantiate" ⟨some 1⟩
        [LogDatum.Text [104], LogDatum.CopiedSource [47, 97]] [] (fun _ => false)
      = InstOutcome.err (BuildError.Exit "nix-instantiate" (some 1) [⟨[104]⟩]) := by
  have h := c5_nonzero_exit_error "nix-instantiate" ⟨some 1⟩
    [LogDatum.Text [104], LogDatum.CopiedSource [47, 97]] [] (fun _ => false) (by decide)
  simpa using h

/-- C7: a well-formed copied-source diagnostic line classifies to
`CopiedSource` with only the source capture, and the watch-list fold
adds exactly one `Recursive` entry for that source; the destination
path never enters the watch list. -/
theorem c7_copied_source_watch (src dst : List Nat) (isDir : List Nat → Bool)
    (hv : utf8Valid (mkCopiedLine src dst) = true) (hs : noNL src = true)
    (hd : noNL dst = true) (hq : dst.all (fun b => b ≠ QUOTE) = true) :
    parse_evaluation_line (mkCopiedLine src dst) = LogDatum.CopiedSource src ∧
    processResults isDir [parse_evaluation_line (mkCopiedLine src dst)]
      = ([WatchPathBuf.Recursive src], []) := by
  have hp := parse_copied_line src dst hv hs hd hq
  refine ⟨hp, ?_⟩
  rw [hp]
  simp [processResults]

/-- Witness for C7 at the concrete line `copied source '/a' -> '/b'`. -/
theorem c7_copied_source_watch_witness :
    parse_evaluation_line (mkCopiedLine [47, 97] [47, 98])
        = LogDatum.CopiedSource [47, 97] ∧
      processResults (fun _ => false) [parse_evaluation_line (mkCopiedLine [47, 97] [47, 98])]
        = ([WatchPathBuf.Recursive [47, 97]], []) :=
  c7_copied_source_watch [47, 97] [47, 98] (fun _ => false)
    (by decide) (by decide) (by decide) (by decide)

/-- C8: an evaluating-file diagnostic line classifies to `NixSourceFile`,
and the watch-list fold yields a single non-recursive (`Normal`) entry:
for a path that is a directory on disk, the entry is the path extended
with `default.nix`; otherwise it is the path itself. -/
theorem c8_eval_file_watch (src : List Nat) (isDir : List Nat → Bool)
    (hv : utf8Valid (mkEvalLine src) = true) (hs : noNL src = true) :
    parse_evaluation_line (mkEvalLine src) = LogDatum.NixSourceFile src ∧
    processResults isDir [parse_evaluation_line (mkEvalLine src)]
      = ([WatchPathBuf.Normal (if isDir src then pathPush src DEFAULT_NIX else src)], []) := by
  have hp := parse_eval_line src hv hs
  refine ⟨hp, ?_⟩
  rw [hp]
  simp [processResults]

/-- Witness for C8 at the concrete line `evaluating file '/f'` with the
path reported as a directory. -/
theorem c8_eval_file_watch_witness :
    parse_evaluation_line (mkEvalLine [47, 102]) = LogDatum.NixSourceFile [47, 102] ∧
      processResults (fun _ => true) [parse_evaluation_line (mkEvalLine [47, 102])]
        = ([WatchPathBuf.Normal
            (if (fun _ => true) [47, 102] then pathPush [47, 102] DEFAULT_NIX
             else [47, 102])], []) :=
  c8_eval_file_watch [47, 102] (fun _ => true) (by decide) (by decide)
